import Mathlib

/-!
# Verification of `transform_reduce` (src/include/sycl/algorithm/transform_reduce.hpp)

A shallow embedding of the multi-pass device tree-reduction implemented by
`sycl::impl::transform_reduce`.  The input sequence `[first, last)` is embedded
as a pair `(n : Nat, input : Nat → T)`; device buffers are embedded as
functions `Nat → Option T` where `none` marks an uninitialized / undefined
slot; the host-visible device interactions (buffer creation, kernel
submission, the blocking wait, the final host read) are recorded in an event
trace.  Machine sizes (`size_t`) are embedded as `Nat`; the source never
relies on overflow.
-/

namespace SyclTR

/-- Host-visible device interactions performed by `transform_reduce`, in
program order.  `bufferCreate` is a `cl::sycl::buffer` construction,
`kernelSubmit` is one `q.submit(f)` recording the captured `passes`,
`length`, `local` and `global` values, `hostWait` is `q.wait_and_throw()`,
and `hostRead` is the host-accessor read of the result buffer. -/
inductive Event where
  | bufferCreate (size : Nat)
  | kernelSubmit (passes length localSize globalSize : Nat)
  | hostWait
  | hostRead
deriving DecidableEq, Repr

/-- Modelled from the spec: `exec.calculateGlobalSize(vectorSize, local)`
(the `ExecutionPolicy` member is not under src/).  Spec §4.1: "`global` is
computed as the smallest multiple of `local` that is ≥ `length` (ceiling
division)". -/
def calculateGlobalSize (length localSize : Nat) : Nat :=
  ((length + localSize - 1) / localSize) * localSize

/-- The ingest step of one work-item (source lines 89–93): on pass 0 it
reads the input buffer at its global index and applies `unary_op`
(`r.workitem_get_from(unary_op, aI)`), on later passes it reads the
partial-result buffer at its global index with no transform
(`r.workitem_get_from(aR)`). -/
def ingest (unary_op : T → T) (input : Nat → T) (aR : Nat → Option T)
    (passes gid : Nat) : Option T :=
  if passes = 0 then some (unary_op (input gid)) else aR gid

/-- Modelled from the spec: the values a work-group feeds into its tree
combine.  `ReductionStrategy` (algorithm_composite_patterns.hpp) is not
under src/; spec §4.3 requires that "work-items that index past the true
logical length (padding introduced by Global Size rounding) must neutralize
their contribution (… or by being excluded from the fold)", so the group's
fold ranges over exactly the work-items of group `g` whose global index is
below the logical length. -/
def groupValues (unary_op : T → T) (input : Nat → T) (aR : Nat → Option T)
    (passes length localSize g : Nat) : List T :=
  (List.range localSize).filterMap (fun l =>
    let gid := g * localSize + l
    if gid < length then ingest unary_op input aR passes gid else none)

/-- Modelled from the spec: the value of one work-group's tree combine
(spec §4.3 step 3), i.e. the in-index-order combination of the group's
ingested values — what the classic pairwise tree reduction computes for the
associative operators the algorithm is specified for.  A group none of
whose work-items is in range has no defined combined value (`none`). -/
def groupCombine (binary_op : T → T → T) : List T → Option T
  | [] => none
  | x :: xs => some (xs.foldl binary_op x)

/-- Number of work-groups launched by one pass: the source builds the
nd_range as `range{std::max(global, local),1,1}` with groups of `local`
(lines 75–76). -/
def numGroupsLaunched (globalSize localSize : Nat) : Nat :=
  max globalSize localSize / localSize

/-- The partial-result buffer after one kernel pass: every launched group
`g` has its representative write the group's combined value to slot `g`
(`r.workgroup_write_to(aR)`, line 95); all other slots keep their previous
contents. -/
def devicePass (binary_op : T → T → T) (unary_op : T → T) (input : Nat → T)
    (aR : Nat → Option T) (passes length localSize globalSize : Nat) :
    Nat → Option T :=
  fun g =>
    if g < numGroupsLaunched globalSize localSize then
      groupCombine binary_op (groupValues unary_op input aR passes length localSize g)
    else aR g

/-- The do/while pass loop of lines 72–101, fuel-indexed so that it is a
total Lean function: each iteration submits one kernel (recorded in the
returned event list), increments `passes` and floors `length` by
`localSize`, and the loop exits when the updated length is ≤ 1.  `none`
means the fuel ran out, i.e. the modelled loop did not terminate within
`fuel` iterations. -/
def runPasses (binary_op : T → T → T) (unary_op : T → T) (input : Nat → T)
    (localSize globalSize : Nat) :
    Nat → (Nat → Option T) → Nat → Nat → Option ((Nat → Option T) × List Event)
  | 0, _, _, _ => none
  | fuel + 1, aR, passes, length =>
    let aR2 := devicePass binary_op unary_op input aR passes length localSize globalSize
    let ev := Event.kernelSubmit passes length localSize globalSize
    if length / localSize > 1 then
      match runPasses binary_op unary_op input localSize globalSize fuel
          aR2 (passes + 1) (length / localSize) with
      | none => none
      | some (buf, evs) => some (buf, ev :: evs)
    else
      some (aR2, [ev])

/-- `sycl::impl::transform_reduce` (lines 52–106).  The device is embedded
by its reported `max_work_group_size`; the range `[first, last)` by
`(n, input)`.  Returns the result (`none` only when the modelled loop
diverges) together with the trace of device interactions.  Faithful
ordering: the result buffer `bufR` is created (line 57) before the
empty-range check of line 58; the input buffer is created at line 67; one
kernel is submitted per loop iteration; a single blocking wait
(`q.wait_and_throw()`, line 102) and the host read (lines 103–104) follow
the loop; the call returns `binary_op(hR[0], init)` (line 105). -/
def transform_reduce (maxWorkGroupSize n : Nat) (input : Nat → T)
    (unary_op : T → T) (init : T) (binary_op : T → T → T) :
    Option T × List Event :=
  if n < 1 then (some init, [Event.bufferCreate n])
  else
    let localSize := min maxWorkGroupSize n
    let globalSize := calculateGlobalSize n localSize
    match runPasses binary_op unary_op input localSize globalSize (n + 1)
        (fun _ => none) 0 n with
    | none => (none, [Event.bufferCreate n, Event.bufferCreate n])
    | some (buf, evs) =>
      ((buf 0).map (fun d => binary_op d init),
        Event.bufferCreate n :: Event.bufferCreate n ::
          (evs ++ [Event.hostWait, Event.hostRead]))

/-- The sequential specification the spec states `transform_reduce` should
compute (§8): the in-order fold of the sequence, combined with `init` on
the right: `fold(S) ⊕ init`. -/
def seqFoldResult (binary_op : T → T → T) (input : Nat → T) (n : Nat)
    (init : T) : Option T :=
  match (List.range n).map input with
  | [] => none
  | x :: xs => some (binary_op (xs.foldl binary_op x) init)

/-- The single remaining device value of a call: slot 0 of the
partial-result buffer after the final pass — the value the host accessor
reads as `hR[0]` at line 105 (`none` if the loop diverged or the slot was
never written). -/
def deviceResult (binary_op : T → T → T) (unary_op : T → T) (input : Nat → T)
    (m n : Nat) : Option T :=
  match runPasses binary_op unary_op input (min m n) (calculateGlobalSize n (min m n))
      (n + 1) (fun _ => none) 0 n with
  | none => none
  | some (buf, _) => buf 0

/-- One iteration of the loop's length update is `length / localSize`
(line 100); `lengthIter localSize k n` is the logical length after `k`
iterations starting from `n`. -/
def lengthIter (localSize : Nat) : Nat → Nat → Nat
  | 0, length => length
  | k + 1, length => lengthIter localSize k (length / localSize)

/-- The do/while loop of lines 72–101 terminates iff after some positive
number of iterations the logical length is ≤ 1 (the loop body always runs
at least once). -/
def loopTerminates (localSize n : Nat) : Prop :=
  ∃ k, lengthIter localSize (k + 1) n ≤ 1

def isKernelSubmitEv : Event → Bool
  | Event.kernelSubmit _ _ _ _ => true
  | _ => false

def isHostWaitEv : Event → Bool
  | Event.hostWait => true
  | _ => false

/-- The pass counter captured by a kernel-submission event. -/
def passOfEvent : Event → Option Nat
  | Event.kernelSubmit p _ _ _ => some p
  | _ => none

/-- The work-group size captured by a kernel-submission event. -/
def localOfEvent : Event → Option Nat
  | Event.kernelSubmit _ _ ls _ => some ls
  | _ => none

def countKernelSubmits (tr : List Event) : Nat :=
  (tr.filter isKernelSubmitEv).length

/-- The trace restricted to kernel submissions and host-side blocking
waits, in order. -/
def syncFiltered (tr : List Event) : List Event :=
  tr.filter (fun e => isKernelSubmitEv e || isHostWaitEv e)

def noAdjacentSubmits : List Event → Bool
  | [] => true
  | [_] => true
  | a :: c :: rest =>
    (!(isKernelSubmitEv a && isKernelSubmitEv c)) && noAdjacentSubmits (c :: rest)

/-- "Between any two consecutive kernel submissions there is a host-side
blocking wait": among the submit/wait events of the trace, no two kernel
submissions are adjacent. -/
def waitBetweenSubmits (tr : List Event) : Prop :=
  noAdjacentSubmits (syncFiltered tr) = true

/-! ## Helper lemmas -/

lemma groupCombine_isSome_of_ne_nil (binary_op : T → T → T) (l : List T)
    (h : l ≠ []) : (groupCombine binary_op l).isSome := by
  cases l with
  | nil => exact absurd rfl h
  | cons x xs => simp [groupCombine]

/-- Slot 0 of the result buffer is defined after any pass over a positive
logical length (group 0 always has its work-item 0 in range). -/
lemma devicePass_zero_isSome (binary_op : T → T → T) (unary_op : T → T)
    (input : Nat → T) (aR : Nat → Option T) (passes length localSize globalSize : Nat)
    (hloc : 1 ≤ localSize) (hlen : 1 ≤ length)
    (h : passes = 0 ∨ (aR 0).isSome) :
    (devicePass binary_op unary_op input aR passes length localSize globalSize 0).isSome := by
  have hg : 0 < numGroupsLaunched globalSize localSize :=
    Nat.div_pos (le_max_right _ _) hloc
  have hing : ∃ v, ingest unary_op input aR passes 0 = some v := by
    cases passes with
    | zero => exact ⟨unary_op (input 0), rfl⟩
    | succ p =>
      rcases h with h | h
      · exact absurd h (by omega)
      · obtain ⟨v, hv⟩ := Option.isSome_iff_exists.mp h
        exact ⟨v, by simpa [ingest] using hv⟩
  obtain ⟨v, hv⟩ := hing
  have hmem : v ∈ groupValues unary_op input aR passes length localSize 0 := by
    apply List.mem_filterMap.mpr
    refine ⟨0, List.mem_range.mpr (by omega), ?_⟩
    simp
    exact ⟨hlen, hv⟩
  simp only [devicePass, if_pos hg]
  exact groupCombine_isSome_of_ne_nil _ _ (List.ne_nil_of_mem hmem)

/-- With a group size of at least 2 the pass loop terminates within
`length` iterations. -/
lemma runPasses_isSome_of_two_le (binary_op : T → T → T) (unary_op : T → T)
    (input : Nat → T) (localSize globalSize : Nat) (hloc : 2 ≤ localSize) :
    ∀ fuel length aR passes, 1 ≤ length → length ≤ fuel →
      (runPasses binary_op unary_op input localSize globalSize fuel aR passes length).isSome := by
  intro fuel
  induction fuel with
  | zero => intro length aR passes hl hf; omega
  | succ fuel ih =>
    intro length aR passes hl hf
    simp only [runPasses]
    split
    · rename_i hgt
      have hlt : length / localSize < length := Nat.div_lt_self (by omega) hloc
      have hs := ih (length / localSize)
        (devicePass binary_op unary_op input aR passes length localSize globalSize)
        (passes + 1) (by omega) (by omega)
      obtain ⟨⟨buf, evs⟩, hp⟩ := Option.isSome_iff_exists.mp hs
      rw [hp]
      rfl
    · rfl

/-- When the first length update already reaches ≤ 1 the loop runs exactly
one iteration. -/
lemma runPasses_isSome_single (binary_op : T → T → T) (unary_op : T → T)
    (input : Nat → T) (localSize globalSize fuel length : Nat)
    (aR : Nat → Option T) (passes : Nat) (h : length / localSize ≤ 1) :
    (runPasses binary_op unary_op input localSize globalSize (fuel + 1) aR passes length).isSome := by
  simp only [runPasses]
  rw [if_neg (by omega)]
  rfl

/-- With the fuel used by `transform_reduce`, the modelled loop returns for
every non-empty input whenever the chosen group size is ≥ 2, and also in
the single-element case. -/
lemma runPasses_total (binary_op : T → T → T) (unary_op : T → T)
    (input : Nat → T) (m n : Nat) (h1 : 1 ≤ n) (h2 : 1 ≤ m)
    (h3 : 2 ≤ min m n ∨ n = 1) :
    (runPasses binary_op unary_op input (min m n) (calculateGlobalSize n (min m n))
      (n + 1) (fun _ => none) 0 n).isSome := by
  rcases h3 with h3 | h3
  · exact runPasses_isSome_of_two_le binary_op unary_op input _ _ h3 (n + 1) n _ 0 h1 (by omega)
  · subst h3
    have hm : min m 1 = 1 := by omega
    rw [hm]
    exact runPasses_isSome_single binary_op unary_op input 1 _ 1 1 _ 0 (by norm_num)

/-- Structure of the events recorded by the pass loop: the pass counters
are consecutive starting from the initial one, every event is a kernel
submission carrying the fixed local and global sizes, and at least one
kernel is submitted. -/
lemma runPasses_evs_shape (binary_op : T → T → T) (unary_op : T → T)
    (input : Nat → T) (localSize globalSize : Nat) :
    ∀ fuel aR passes length buf evs,
      runPasses binary_op unary_op input localSize globalSize fuel aR passes length
        = some (buf, evs) →
      evs.filterMap passOfEvent = List.range' passes evs.length ∧
      (∀ e ∈ evs, ∃ p l, e = Event.kernelSubmit p l localSize globalSize) ∧
      evs ≠ [] := by
  intro fuel
  induction fuel with
  | zero => intro aR passes length buf evs h; exact absurd h (by simp [runPasses])
  | succ fuel ih =>
    intro aR passes length buf evs h
    simp only [runPasses] at h
    split at h
    · cases hr : runPasses binary_op unary_op input localSize globalSize fuel
          (devicePass binary_op unary_op input aR passes length localSize globalSize)
          (passes + 1) (length / localSize) with
      | none => rw [hr] at h; exact absurd h (by simp)
      | some p =>
        obtain ⟨buf2, evs2⟩ := p
        rw [hr] at h
        obtain ⟨hb, he⟩ := Prod.mk.injEq .. ▸ Option.some.injEq .. ▸ h
        obtain ⟨ih1, ih2, _⟩ := ih _ _ _ _ _ hr
        subst hb
        constructor
        · rw [← he]
          simp only [List.filterMap_cons, passOfEvent, List.length_cons, List.range'_succ]
          rw [ih1]
        · rw [← he]
          constructor
          · intro e hme
            rcases List.mem_cons.mp hme with rfl | hme
            · exact ⟨passes, length, rfl⟩
            · exact ih2 e hme
          · simp
    · obtain ⟨hb, he⟩ := Prod.mk.injEq .. ▸ Option.some.injEq .. ▸ h
      rw [← he]
      refine ⟨?_, ?_, by simp⟩
      · simp [passOfEvent, List.range'_succ]
      · intro e hme
        rw [List.mem_singleton.mp hme]
        exact ⟨passes, length, rfl⟩

/-- Slot 0 of the final buffer is defined whenever the loop entered with a
positive length and an initial state reached from pass 0. -/
lemma runPasses_buf_zero (binary_op : T → T → T) (unary_op : T → T)
    (input : Nat → T) (localSize globalSize : Nat) (hloc : 1 ≤ localSize) :
    ∀ fuel aR passes length buf evs, 1 ≤ length →
      (passes = 0 ∨ (aR 0).isSome) →
      runPasses binary_op unary_op input localSize globalSize fuel aR passes length
        = some (buf, evs) →
      (buf 0).isSome := by
  intro fuel
  induction fuel with
  | zero => intro aR passes length buf evs hl hz h; exact absurd h (by simp [runPasses])
  | succ fuel ih =>
    intro aR passes length buf evs hl hz h
    simp only [runPasses] at h
    split at h
    · rename_i hgt
      cases hr : runPasses binary_op unary_op input localSize globalSize fuel
          (devicePass binary_op unary_op input aR passes length localSize globalSize)
          (passes + 1) (length / localSize) with
      | none => rw [hr] at h; exact absurd h (by simp)
      | some p =>
        obtain ⟨buf2, evs2⟩ := p
        rw [hr] at h
        obtain ⟨hb, _⟩ := Prod.mk.injEq .. ▸ Option.some.injEq .. ▸ h
        subst hb
        exact ih _ (passes + 1) (length / localSize) _ _ (by omega)
          (Or.inr (devicePass_zero_isSome binary_op unary_op input aR passes length
            localSize globalSize hloc hl hz)) hr
    · obtain ⟨hb, _⟩ := Prod.mk.injEq .. ▸ Option.some.injEq .. ▸ h
      subst hb
      exact devicePass_zero_isSome binary_op unary_op input aR passes length
        localSize globalSize hloc hl hz

/-- Unfolds `transform_reduce` on a non-empty range given the loop's
outcome. -/
lemma transform_reduce_eq (m n : Nat) (input : Nat → T) (unary_op : T → T)
    (init : T) (binary_op : T → T → T) (buf : Nat → Option T) (evs : List Event)
    (h1 : 1 ≤ n)
    (hr : runPasses binary_op unary_op input (min m n) (calculateGlobalSize n (min m n))
      (n + 1) (fun _ => none) 0 n = some (buf, evs)) :
    transform_reduce m n input unary_op init binary_op =
      ((buf 0).map (fun d => binary_op d init),
        Event.bufferCreate n :: Event.bufferCreate n ::
          (evs ++ [Event.hostWait, Event.hostRead])) := by
  simp only [transform_reduce]
  rw [if_neg (by omega), hr]

-- Sanity checks against the spec's §8 scenarios.
example :
    (transform_reduce 8 8 (fun g => [1,2,3,4,5,6,7,8].getD g 0)
      (fun x => x * x) 0 (fun a c => a + c)).fst = some 204 := by decide

example :
    (transform_reduce 2 8 (fun g => [1,2,3,4,5,6,7,8].getD g 0)
      (fun x => x * x) 0 (fun a c => a + c)).fst = some 204 := by decide

example :
    (transform_reduce 2 8 (fun g => [1,2,3,4,5,6,7,8].getD g 0)
      (fun x => x) 100 (fun a c => a + c)).fst = some 136 := by decide

example :
    (transform_reduce 64 1 (fun _ => 7)
      (fun x => x + 1) 2 (fun a c => a * c)).fst = some 16 := by decide

/-! ## Claim theorems -/

/-- Claim C1, refuted on the code (code bug).  With `S = [1,1,1,1,1]`,
`unary_op = identity`, `binary_op = +`, `init = 0` and a device maximum
work-group size of 4, the call returns 4 while the specified sequential
fold `fold(S) ⊕ init` is 5: the floored length update `length = length /
local` of line 100 ends the loop at length `5 / 4 = 1` and the remainder
group's partial result (the fifth element) is never combined. -/
theorem transform_reduce_drops_remainder :
    (transform_reduce 4 5 (fun _ => (1 : Nat)) (fun x => x) 0
      (fun a c => a + c)).fst = some 4 ∧
    seqFoldResult (fun a c => a + c) (fun _ => (1 : Nat)) 5 0 = some 5 := by
  constructor <;> decide

/-- Claim C2 counterexample: on an empty range the call still creates the
(size-0) partial-result device buffer, because line 57 constructs `bufR`
before the emptiness check of line 58 — so "no device buffer creation
before returning" is false. -/
theorem transform_reduce_empty_still_creates_buffer :
    (some 42, [Event.bufferCreate 0]) =
      transform_reduce 7 0 (fun _ => (0 : Nat)) (fun x => x) 42 (fun a c => a + c) := by
  decide

/-- Claim C2 (amended): on an empty range `transform_reduce` returns exactly
`init` for any operators, and submits no kernel, waits for nothing and
reads nothing back — but it does create the size-0 partial-result device
buffer before the early return. -/
theorem transform_reduce_empty_returns_init (input : Nat → T) (unary_op : T → T)
    (init : T) (binary_op : T → T → T) (m : Nat) :
    transform_reduce m 0 input unary_op init binary_op
      = (some init, [Event.bufferCreate 0]) ∧
    countKernelSubmits (transform_reduce m 0 input unary_op init binary_op).snd = 0 := by
  refine ⟨by simp [transform_reduce], ?_⟩
  simp [transform_reduce, countKernelSubmits, isKernelSubmitEv]

/-- Claim C3 counterexample: a two-pass run (length 4, group size 2) submits its
two kernels back-to-back with no host-side blocking wait between them —
the only wait (`q.wait_and_throw()`, line 102) comes after the loop. -/
theorem no_wait_between_consecutive_submissions :
    ¬ waitBetweenSubmits (transform_reduce 2 4 (fun _ => (1 : Nat))
      (fun x => x) 0 (fun a c => a + c)).snd := by
  simp only [waitBetweenSubmits]
  decide

/-- Claim C3 (amended): the orchestrator never blocks between kernel
submissions; all passes are submitted back-to-back and a single host-side
blocking wait occurs after the last submission (followed only by the host
read): restricted to submissions and waits, the trace is exactly the
submissions followed by the one wait. -/
theorem single_wait_after_all_submissions (m n : Nat) (input : Nat → T)
    (unary_op : T → T) (init : T) (binary_op : T → T → T)
    (h1 : 1 ≤ n) (h2 : 1 ≤ m) (h3 : 2 ≤ min m n ∨ n = 1) :
    syncFiltered (transform_reduce m n input unary_op init binary_op).snd =
      (transform_reduce m n input unary_op init binary_op).snd.filter isKernelSubmitEv
        ++ [Event.hostWait] := by
  obtain ⟨⟨buf, evs⟩, hr⟩ := Option.isSome_iff_exists.mp
    (runPasses_total binary_op unary_op input m n h1 h2 h3)
  obtain ⟨_, hsub, _⟩ := runPasses_evs_shape binary_op unary_op input _ _ _ _ _ _ _ _ hr
  rw [transform_reduce_eq m n input unary_op init binary_op buf evs h1 hr]
  have hall : ∀ e ∈ evs, isKernelSubmitEv e = true := by
    intro e he
    obtain ⟨p, l, rfl⟩ := hsub e he
    rfl
  simp only [syncFiltered, List.filter_cons, List.filter_append]
  rw [List.filter_eq_self.mpr hall,
      List.filter_eq_self.mpr (by intro e he; simp only [Bool.or_eq_true]; exact Or.inl (hall e he))]
  simp [isKernelSubmitEv, isHostWaitEv]

/-- Claim C3 amended witness at a concrete two-pass run. -/
theorem single_wait_after_all_submissions_witness :
    syncFiltered (transform_reduce 2 4 (fun _ => (1 : Nat)) (fun x => x) 0
        (fun a c => a + c)).snd =
      (transform_reduce 2 4 (fun _ => (1 : Nat)) (fun x => x) 0
        (fun a c => a + c)).snd.filter isKernelSubmitEv ++ [Event.hostWait] :=
  single_wait_after_all_submissions 2 4 (fun _ => (1 : Nat)) (fun x => x) 0
    (fun a c => a + c) (by decide) (by decide) (by decide)

/-- Claim C4, refuted on the code (code bug).  Same sequence `S = [1,1,1,1,1]`,
identity transform, associative and commutative `+`, `init = 0`; two valid
device maximum group sizes give different results (4 with group size 4,
5 with group size 5), because the floored length update drops the
remainder group exactly when the length is not a multiple of the group
size. -/
theorem result_depends_on_local_size :
    (transform_reduce 4 5 (fun _ => (1 : Nat)) (fun x => x) 0
      (fun a c => a + c)).fst = some 4 ∧
    (transform_reduce 5 5 (fun _ => (1 : Nat)) (fun x => x) 0
      (fun a c => a + c)).fst = some 5 := by
  constructor <;> decide

/-- Claim C5 counterexample: with group size 1 (a device whose maximum work-group
size is 1) and input length 2 the loop never terminates — `length / 1 = 2`
forever — and the modelled call diverges (returns the divergence marker);
so "the loop terminates for every positive input length and every valid
local size ≥ 1" is false. -/
theorem loop_diverges_when_local_size_is_one :
    ¬ loopTerminates 1 2 ∧
    (transform_reduce 1 2 (fun _ => (1 : Nat)) (fun x => x) 0
      (fun a c => a + c)).fst = none := by
  constructor
  · rintro ⟨k, hk⟩
    have hconst : ∀ j, lengthIter 1 j 2 = 2 := by
      intro j
      induction j with
      | zero => rfl
      | succ j ih => simpa [lengthIter] using ih
    rw [hconst] at hk
    omega
  · decide

/-- Claim C5 (amended): each pass updates the logical length to
`floor(previousLength / local)` and the loop exits exactly when the updated
length is ≤ 1; it terminates for every positive input length whenever
`local ≥ 2` (with `local = 1` it terminates only for input length 1). -/
theorem loop_terminates_of_two_le_local (localSize n : Nat)
    (h1 : 1 ≤ n) (h2 : 2 ≤ localSize) : loopTerminates localSize n := by
  have main : ∀ n, 1 ≤ n → loopTerminates localSize n := by
    intro n
    induction n using Nat.strong_induction_on with
    | _ n ih =>
      intro hn
      by_cases h : n / localSize ≤ 1
      · exact ⟨0, h⟩
      · have hlt : n / localSize < n := Nat.div_lt_self (by omega) h2
        obtain ⟨k, hk⟩ := ih (n / localSize) hlt (by omega)
        exact ⟨k + 1, hk⟩
  exact main n h1

/-- Claim C5 amended witness. -/
theorem loop_terminates_of_two_le_local_witness : loopTerminates 4 20 :=
  loop_terminates_of_two_le_local 4 20 (by decide) (by decide)

/-- Claim C6: the pass counters carried by the kernel submissions of one call are
exactly 0, 1, 2, …; the pass-0 ingest applies `unary_op` to the input
buffer at the work-item's global index, and any pass ≥ 1 ingests the
already-combined value from the partial-result buffer at the global index,
independently of `unary_op` and of the input buffer. -/
theorem pass_counters_and_ingest_sources (m n : Nat) (input input2 : Nat → T)
    (unary_op unary2 : T → T) (init : T) (binary_op : T → T → T)
    (aR : Nat → Option T) (p gid : Nat)
    (h1 : 1 ≤ n) (h2 : 1 ≤ m) (h3 : 2 ≤ min m n ∨ n = 1) (hp : 1 ≤ p) :
    (transform_reduce m n input unary_op init binary_op).snd.filterMap passOfEvent =
      List.range (countKernelSubmits
        (transform_reduce m n input unary_op init binary_op).snd) ∧
    ingest unary_op input aR 0 gid = some (unary_op (input gid)) ∧
    ingest unary_op input aR p gid = aR gid ∧
    ingest unary_op input aR p gid = ingest unary2 input2 aR p gid := by
  obtain ⟨⟨buf, evs⟩, hr⟩ := Option.isSome_iff_exists.mp
    (runPasses_total binary_op unary_op input m n h1 h2 h3)
  obtain ⟨hpass, hsub, _⟩ := runPasses_evs_shape binary_op unary_op input _ _ _ _ _ _ _ _ hr
  have hall : ∀ e ∈ evs, isKernelSubmitEv e = true := by
    intro e he
    obtain ⟨q, l, rfl⟩ := hsub e he
    rfl
  refine ⟨?_, rfl, ?_, ?_⟩
  · rw [transform_reduce_eq m n input unary_op init binary_op buf evs h1 hr]
    simp only [countKernelSubmits, List.filterMap_cons, List.filterMap_append,
      List.filter_cons, List.filter_append, passOfEvent, isKernelSubmitEv]
    simp only [List.filter_eq_self.mpr hall, hpass]
    simp [List.range_eq_range']
  · cases p with
    | zero => omega
    | succ q => simp [ingest]
  · cases p with
    | zero => omega
    | succ q => simp [ingest]

/-- Claim C6 witness at a concrete two-pass run with `p = 1`. -/
theorem pass_counters_and_ingest_sources_witness :
    (transform_reduce 2 4 (fun _ => (1 : Nat)) (fun x => x + 1) 0
        (fun a c => a + c)).snd.filterMap passOfEvent =
      List.range (countKernelSubmits (transform_reduce 2 4 (fun _ => (1 : Nat))
        (fun x => x + 1) 0 (fun a c => a + c)).snd) ∧
    ingest (fun x => x + 1) (fun _ => (1 : Nat)) (fun _ => some 9) 0 3
      = some ((fun x => x + 1) ((fun _ => (1 : Nat)) 3)) ∧
    ingest (fun x => x + 1) (fun _ => (1 : Nat)) (fun _ => some 9) 1 3
      = (fun _ => some 9) 3 ∧
    ingest (fun x => x + 1) (fun _ => (1 : Nat)) (fun _ => some 9) 1 3
      = ingest (fun x => x + 7) (fun _ => (5 : Nat)) (fun _ => some 9) 1 3 :=
  pass_counters_and_ingest_sources 2 4 (fun _ => (1 : Nat)) (fun _ => (5 : Nat))
    (fun x => x + 1) (fun x => x + 7) 0 (fun a c => a + c) (fun _ => some 9) 1 3
    (by decide) (by decide) (by decide) (by decide)

/-- Claim C7: the returned value is `binary_op(d, init)` where `d` is the single
remaining device value at slot 0 of the partial-result buffer after the
final pass: the device partial is the left operand and `init` the right
operand (line 105). -/
theorem finalize_applies_init_on_the_right (m n : Nat) (input : Nat → T)
    (unary_op : T → T) (init : T) (binary_op : T → T → T)
    (h1 : 1 ≤ n) (h2 : 1 ≤ m) (h3 : 2 ≤ min m n ∨ n = 1) :
    (deviceResult binary_op unary_op input m n).isSome ∧
    (transform_reduce m n input unary_op init binary_op).fst =
      (deviceResult binary_op unary_op input m n).map (fun d => binary_op d init) := by
  obtain ⟨⟨buf, evs⟩, hr⟩ := Option.isSome_iff_exists.mp
    (runPasses_total binary_op unary_op input m n h1 h2 h3)
  have hz : (buf 0).isSome :=
    runPasses_buf_zero binary_op unary_op input _ _ (by omega) _ _ 0 n _ _ h1
      (Or.inl rfl) hr
  have hd : deviceResult binary_op unary_op input m n = buf 0 := by
    simp only [deviceResult]
    rw [hr]
  rw [transform_reduce_eq m n input unary_op init binary_op buf evs h1 hr, hd]
  exact ⟨hz, rfl⟩

/-- Claim C7 witness: a non-commutative `binary_op` (truncated subtraction) makes
the operand order observable: device partial 7 = 10 - 3, result 7 - 2 = 5. -/
theorem finalize_applies_init_on_the_right_witness :
    (deviceResult (fun a c => a - c) (fun x => x)
      (fun g => if g = 0 then 10 else 3) 2 2).isSome ∧
    (transform_reduce 2 2 (fun g => if g = 0 then 10 else 3) (fun x => x) 2
        (fun a c => a - c)).fst =
      (deviceResult (fun a c => a - c) (fun x => x)
        (fun g => if g = 0 then (10 : Nat) else 3) 2 2).map (fun d => d - 2) :=
  finalize_applies_init_on_the_right 2 2 (fun g => if g = 0 then 10 else 3)
    (fun x => x) 2 (fun a c => a - c) (by decide) (by decide) (by decide)

/-- Claim C8: the work-group size chosen at call start is
`min(maxWorkGroupSize, n)`, it is positive, and every kernel submission of
the call carries that same size — it never changes across passes. -/
theorem local_size_chosen_once_and_fixed (m n : Nat) (input : Nat → T)
    (unary_op : T → T) (init : T) (binary_op : T → T → T) (e : Event)
    (h1 : 1 ≤ n) (h2 : 1 ≤ m) (h3 : 2 ≤ min m n ∨ n = 1)
    (he : e ∈ (transform_reduce m n input unary_op init binary_op).snd)
    (hs : isKernelSubmitEv e = true) :
    1 ≤ min m n ∧ localOfEvent e = some (min m n) := by
  refine ⟨by omega, ?_⟩
  obtain ⟨⟨buf, evs⟩, hr⟩ := Option.isSome_iff_exists.mp
    (runPasses_total binary_op unary_op input m n h1 h2 h3)
  obtain ⟨_, hsub, _⟩ := runPasses_evs_shape binary_op unary_op input _ _ _ _ _ _ _ _ hr
  rw [transform_reduce_eq m n input unary_op init binary_op buf evs h1 hr] at he
  cases e with
  | bufferCreate s => exact absurd hs (by simp [isKernelSubmitEv])
  | hostWait => exact absurd hs (by simp [isKernelSubmitEv])
  | hostRead => exact absurd hs (by simp [isKernelSubmitEv])
  | kernelSubmit p l ls g =>
    simp only [List.mem_cons, List.mem_append, List.mem_singleton] at he
    rcases he with he | he | he | he | he
    · exact absurd he (by simp)
    · exact absurd he (by simp)
    · obtain ⟨p2, l2, heq⟩ := hsub _ he
      rw [heq]
      rfl
    · exact absurd he (by simp)
    · exact absurd he (by simp)

/-- Claim C8 witness: the second submission of a two-pass run still carries group
size `min 2 4 = 2`. -/
theorem local_size_chosen_once_and_fixed_witness :
    1 ≤ min 2 4 ∧ localOfEvent (Event.kernelSubmit 1 2 2 4) = some (min 2 4) :=
  local_size_chosen_once_and_fixed 2 4 (fun _ => (1 : Nat)) (fun x => x) 0
    (fun a c => a + c) (Event.kernelSubmit 1 2 2 4) (by decide) (by decide)
    (by decide) (by decide) (by decide)

/-- Claim C9: padding work-items — those whose global index is at or beyond the
logical length — are excluded from their group's fold, so a group's
combined value depends only on buffer contents below the logical length:
changing the input buffer or the partial-result buffer at out-of-range
indices changes neither the group's value list nor its combined value. -/
theorem padding_items_never_affect_combine (binary_op : T → T → T)
    (unary_op : T → T) (input input2 : Nat → T) (aR aR2 : Nat → Option T)
    (passes length localSize g : Nat)
    (hin : ∀ j, j < length → input j = input2 j)
    (haR : ∀ j, j < length → aR j = aR2 j) :
    groupValues unary_op input aR passes length localSize g =
      groupValues unary_op input2 aR2 passes length localSize g ∧
    groupCombine binary_op (groupValues unary_op input aR passes length localSize g) =
      groupCombine binary_op (groupValues unary_op input2 aR2 passes length localSize g) := by
  have hv : groupValues unary_op input aR passes length localSize g =
      groupValues unary_op input2 aR2 passes length localSize g := by
    unfold groupValues
    apply List.filterMap_congr
    intro l _
    by_cases hlt : g * localSize + l < length
    · simp only [if_pos hlt, ingest]
      cases passes with
      | zero => simp [hin _ hlt]
      | succ p => simp [haR _ hlt]
    · simp [if_neg hlt]
  exact ⟨hv, by rw [hv]⟩

/-- Claim C9 witness: perturbing both buffers at indices ≥ 3 (logical length 3)
leaves group 0's values and combined value unchanged. -/
theorem padding_items_never_affect_combine_witness :
    groupValues (fun x => x + 1) (fun j => j) (fun _ => none) 0 3 4 0 =
      groupValues (fun x => x + 1) (fun j => if j < 3 then j else 99)
        (fun j => if j < 3 then none else some 5) 0 3 4 0 ∧
    groupCombine (fun a c => a + c)
        (groupValues (fun x => x + 1) (fun j => j) (fun _ => none) 0 3 4 0) =
      groupCombine (fun a c => a + c)
        (groupValues (fun x => x + 1) (fun j => if j < 3 then j else 99)
          (fun j => if j < 3 then none else some 5) 0 3 4 0) :=
  padding_items_never_affect_combine (fun a c => a + c) (fun x => x + 1)
    (fun j => j) (fun j => if j < 3 then j else 99) (fun _ => none)
    (fun j => if j < 3 then none else some 5) 0 3 4 0
    (fun j hj => by simp [hj]) (fun j hj => by simp [hj])

/-- Claim C10: every non-empty input leads to at least one kernel submission
before the host reads the result back — the pass loop is do/while, so even
a single-element input (logical length already 1) submits pass 0 — and the
call does return a result. -/
theorem nonempty_input_submits_at_least_once (m n : Nat) (input : Nat → T)
    (unary_op : T → T) (init : T) (binary_op : T → T → T)
    (h1 : 1 ≤ n) (h2 : 1 ≤ m) (h3 : 2 ≤ min m n ∨ n = 1) :
    1 ≤ countKernelSubmits (transform_reduce m n input unary_op init binary_op).snd ∧
    (transform_reduce m n input unary_op init binary_op).fst.isSome := by
  obtain ⟨⟨buf, evs⟩, hr⟩ := Option.isSome_iff_exists.mp
    (runPasses_total binary_op unary_op input m n h1 h2 h3)
  obtain ⟨_, hsub, hne⟩ := runPasses_evs_shape binary_op unary_op input _ _ _ _ _ _ _ _ hr
  have hall : ∀ e ∈ evs, isKernelSubmitEv e = true := by
    intro e he
    obtain ⟨p, l, rfl⟩ := hsub e he
    rfl
  have hz : (buf 0).isSome :=
    runPasses_buf_zero binary_op unary_op input _ _ (by omega) _ _ 0 n _ _ h1
      (Or.inl rfl) hr
  rw [transform_reduce_eq m n input unary_op init binary_op buf evs h1 hr]
  constructor
  · simp only [countKernelSubmits, List.filter_cons, List.filter_append, isKernelSubmitEv]
    rw [List.filter_eq_self.mpr hall]
    have : 1 ≤ evs.length := List.length_pos.mpr hne
    simp
    omega
  · simpa using hz

/-- Claim C10 witness at the single-element boundary case `n = 1`. -/
theorem nonempty_input_submits_at_least_once_witness :
    1 ≤ countKernelSubmits (transform_reduce 3 1 (fun _ => (7 : Nat))
      (fun x => x + 1) 2 (fun a c => a * c)).snd ∧
    (transform_reduce 3 1 (fun _ => (7 : Nat)) (fun x => x + 1) 2
      (fun a c => a * c)).fst.isSome :=
  nonempty_input_submits_at_least_once 3 1 (fun _ => (7 : Nat)) (fun x => x + 1)
    2 (fun a c => a * c) (by decide) (by decide) (by decide)

end SyclTR
